import Mathlib

/-!
Shallow embedding of `src/ir-normalization/normalizer.py` (arcticseals).

Modelling conventions:
* Python `str` is modelled as `List Char`; concrete names are written
  with `String.toList` on literals.
* numpy pixel grids are `List (List ℤ)` (row-major 2-D arrays of integer
  samples); numpy float64 arithmetic is idealized as exact `ℚ` arithmetic.
  In `ℚ`, division by zero yields the junk value `0` (numpy would yield
  NaN/inf); no claim relies on the value produced on that path, only on
  the fact that the code returns normally there.
* `astype(np.uint8)` / `astype(np.uint16)` is modelled as `% 256` /
  `% 65536` on the floored integer (wrap-around cast).
* A Python function that can raise is embedded in `Except String`;
  file I/O is abstracted by a `FileSystem` record whose `load` returns
  `none` on a read/decode failure and whose `save` returns `false` on a
  write failure (these model the exceptions caught in `process_file`).
-/

/-- Word for the per-sample body of `lin_normalize_image`:
`s = (v - bottom) / (top - bottom)`; then `s[s < 0] = 0`; then
`s[s > 1] = 1`; then `floor (s * 255)` cast to uint8 (8-bit mode) or
`floor (s * 65535)` cast to uint16 (16-bit mode). -/
def normalizeSample (bit_8 : Bool) (bottom top v : ℤ) : ℤ :=
  let s : ℚ := ((v : ℚ) - (bottom : ℚ)) / ((top : ℚ) - (bottom : ℚ))
  let s1 : ℚ := if s < 0 then 0 else s
  let s2 : ℚ := if s1 > 1 then 1 else s1
  if bit_8 then ⌊s2 * 255⌋ % 256 else ⌊s2 * 65535⌋ % 65536

/-- Word for `np.min` over a 2-D array (the `bottom is None` fallback in
`lin_normalize_image`); `np.min` of an empty array raises in numpy, the
model returns 0 there (no claim exercises that path). -/
def gridMin (g : List (List ℤ)) : ℤ :=
  match g.flatten with
  | [] => 0
  | x :: xs => xs.foldl min x

/-- Word for `np.max` over a 2-D array (the `top is None` fallback). -/
def gridMax (g : List (List ℤ)) : ℤ :=
  match g.flatten with
  | [] => 0
  | x :: xs => xs.foldl max x

/-- Embedding of `lin_normalize_image(image_array, bit_8, bottom, top)`:
optional bounds default to the grid minimum / maximum, then every sample
is rescaled by `normalizeSample`. -/
def lin_normalize_image (image_array : List (List ℤ)) (bit_8 : Bool)
    (bottom? top? : Option ℤ) : List (List ℤ) :=
  let bottom := bottom?.getD (gridMin image_array)
  let top := top?.getD (gridMax image_array)
  image_array.map (List.map (normalizeSample bit_8 bottom top))

/-- Word-level model of the spec formula for one sample:
`floor (clip ((v - bottom) / (top - bottom), 0, 1) * (2^d - 1))`.
This is written from the spec sentence, to be compared with the
source-derived `normalizeSample`. -/
def specSample (d : ℕ) (bottom top v : ℤ) : ℤ :=
  ⌊(max 0 (min 1 (((v : ℚ) - (bottom : ℚ)) / ((top : ℚ) - (bottom : ℚ))))) * (2 ^ d - 1)⌋

/-- Word for Python `pattern in s` / `s.find(pattern) != -1`:
substring containment on char lists. -/
def strFind (pat : List Char) : List Char → Bool
  | [] => pat.isEmpty
  | c :: rest => pat.isPrefixOf (c :: rest) || strFind pat rest

/-- Word for `x.find(chr16) != -1` with `chr16 = "16BIT.PNG"` in
`curate_files`. -/
def contains16BIT (s : List Char) : Bool :=
  strFind ("16BIT.PNG".toList) s

/-- Fuel-driven worker for `pyReplace` (structural recursion on fuel so
that the kernel can evaluate it). -/
def pyReplaceFuel (pat repl : List Char) : Nat → List Char → List Char
  | 0, s => s
  | _ + 1, [] => []
  | fuel + 1, c :: rest =>
    if !pat.isEmpty && pat.isPrefixOf (c :: rest) then
      repl ++ pyReplaceFuel pat repl fuel ((c :: rest).drop pat.length)
    else
      c :: pyReplaceFuel pat repl fuel rest

/-- Word for Python `s.replace(pat, repl)`: replace every non-overlapping
occurrence of `pat`, left to right. -/
def pyReplace (pat repl s : List Char) : List Char :=
  pyReplaceFuel pat repl s.length s

/-- Word for Python `s.split(sep)` with a one-character separator
(as used by `parse_filename` with sep `_`). -/
def pySplit (sep : Char) : List Char → List (List Char)
  | [] => [[]]
  | c :: rest =>
    let r := pySplit sep rest
    if c = sep then [] :: r
    else
      match r with
      | [] => [[c]]
      | t :: ts => (c :: t) :: ts

/-- Word for `os.path.basename`: the part of the path after the last
slash. -/
def basename (p : List Char) : List Char :=
  (pySplit '/' p).getLastD []

/-- Word for `os.path.join(d, f)` in the form the program uses
(a directory joined with a relative file name). -/
def pathJoin (d f : List Char) : List Char :=
  if d.isEmpty then f else d ++ '/' :: f

/-- Embedding of `parse_filename(filename)`: split the basename on `_`
and take the first token equal to `P`, `C` or `S`.  The source's
`for/else` prints a warning when no token matches and then executes
`return camera_pos` with `camera_pos` never assigned, raising
`UnboundLocalError`; that path is modelled as `none`. -/
def parse_filename (filename : List Char) : Option (List Char) :=
  (pySplit '_' (basename filename)).find?
    (fun token => token = ("P".toList) ∨ token = ("C".toList) ∨ token = ("S".toList))

/-- Embedding of `get_scaling_values(filename, num_rows)`: defaults
`(51000, 57500)` (camera S and default), overridden for cameras P and C.
When `parse_filename` raises (no camera token), the exception propagates
out of `get_scaling_values`, modelled as `Except.error`. -/
def get_scaling_values (filename : List Char) (num_rows : ℕ) :
    Except String (ℤ × ℤ) :=
  match parse_filename filename with
  | none => Except.error "UnboundLocalError: camera_pos"
  | some camera_pos =>
    if camera_pos = ("P".toList) then
      if num_rows = 512 then Except.ok (53500, 56500)
      else if num_rows = 480 then Except.ok (50500, 58500)
      else Except.ok (51000, 57500)
    else if camera_pos = ("C".toList) then Except.ok (50500, 58500)
    else Except.ok (51000, 57500)

/-- Abstraction of the image codec and the file system used by
`process_file`: `load` returns `none` when `Image.open`/decoding raises,
`save` returns `false` when writing the output raises. -/
structure FileSystem where
  load : List Char → Option (List (List ℤ))
  save : List Char → List (List ℤ) → Bool

/-- Embedding of `process_file(...)` (the telemetry block is pure
logging and is omitted): load the image, resolve bounds from the file
name and the row count, normalize, save; every exception on that path is
caught by the `except` clause and turned into `False`. -/
def process_file (fs : FileSystem) (bit_8 : Bool)
    (in_file output_file : List Char) : Bool :=
  match fs.load in_file with
  | none => false
  | some cur_data =>
    match get_scaling_values in_file cur_data.length with
    | Except.error _ => false
    | Except.ok (bottom, top) =>
      let normalized := lin_normalize_image cur_data bit_8 (some bottom) (some top)
      fs.save output_file normalized

/-- Embedding of `curate_files(input_directory, output_directory, bit_8)`
with the `os.listdir` result passed in as `listing`: keep the names
containing `16BIT.PNG`, derive output names by the replace rule, and
prefix both lists with their directories. -/
def curate_files (listing : List (List Char))
    (input_directory output_directory : List Char) (bit_8 : Bool) :
    List (List Char) × List (List Char) :=
  let input_files := listing.filter contains16BIT
  let output_files :=
    if bit_8 then input_files.map (pyReplace ("16BIT".toList) ("8BIT-N".toList))
    else input_files.map (pyReplace ("16BIT.".toList) ("16BIT-N.".toList))
  (input_files.map (pathJoin input_directory),
   output_files.map (pathJoin output_directory))

/-- Embedding of the worker-pool size computation in `main`:
`num_workers = cpu_count() - 1 or 1` (Python `or` picks 1 exactly when
`cpu_count() - 1` is zero). -/
def num_workers (cpu_count : ℤ) : ℤ :=
  if cpu_count - 1 = 0 then 1 else cpu_count - 1

/-- Embedding of the batch part of `main`: curate the files, run
`process_file` on every (input, output) pair, and report
`(total files found, files successfully converted)` — the two numbers
printed by `main`. -/
def runBatch (fs : FileSystem) (listing : List (List Char)) (bit_8 : Bool)
    (input_directory output_directory : List Char) : ℕ × ℕ :=
  let pair := curate_files listing input_directory output_directory bit_8
  let results := (pair.1.zip pair.2).map (fun t => process_file fs bit_8 t.1 t.2)
  (pair.1.length, results.count true)

/-- Batch scenario fixture: a directory listing with five names that
contain `16BIT.PNG` and one that does not. -/
def exListing : List (List Char) :=
  ["f1_P_16BIT.PNG".toList, "f2_C_16BIT.PNG".toList, "f3_S_16BIT.PNG".toList,
   "f4_P_16BIT.PNG".toList, "f5_C_16BIT.PNG".toList, "notes.txt".toList]

/-- Batch scenario fixture: every file loads as a 1×1 grid except the
third, which is unreadable; saving always succeeds. -/
def exFS : FileSystem where
  load := fun f => if f = ("in/f3_S_16BIT.PNG".toList) then none else some [[51000]]
  save := fun _ _ => true

/-- Fixture for single-file runs: loading and saving always succeed. -/
def okFS : FileSystem where
  load := fun _ => some [[51000]]
  save := fun _ _ => true

/-- Fixture for single-file runs: every load fails. -/
def badFS : FileSystem where
  load := fun _ => none
  save := fun _ _ => true

/-! Helper lemmas about the per-sample computation. -/

/-- The two sequential masked assignments in the source
(`s[s < 0] = 0` then `s[s > 1] = 1`) clip a sample to `[0, 1]`. -/
lemma clip2_eq (s : ℚ) :
    (if (if s < 0 then 0 else s) > 1 then 1 else (if s < 0 then 0 else s))
      = max 0 (min 1 s) := by
  by_cases h0 : s < 0
  · rw [if_pos h0]
    have h1 : ¬ ((0 : ℚ) > 1) := by norm_num
    rw [if_neg h1]
    have hmin : min 1 s = s := min_eq_right (h0.le.trans zero_le_one)
    rw [hmin, max_eq_left h0.le]
  · rw [if_neg h0]
    push_neg at h0
    by_cases h1 : s > 1
    · rw [if_pos h1, min_eq_left h1.le, max_eq_right zero_le_one]
    · push_neg at h1
      rw [if_neg (not_lt.mpr h1), min_eq_right h1, max_eq_right h0]

/-- `normalizeSample` computes the clipped, scaled and floored value: the
wrap-around cast (`% 2^d`) never fires because the floored value is
already within range. -/
lemma normalizeSample_eq_floor (bit_8 : Bool) (bottom top v : ℤ) :
    normalizeSample bit_8 bottom top v
      = ⌊(max 0 (min 1 (((v : ℚ) - (bottom : ℚ)) / ((top : ℚ) - (bottom : ℚ)))))
          * (if bit_8 then (255 : ℚ) else 65535)⌋ := by
  simp only [normalizeSample]
  rw [clip2_eq]
  set c : ℚ := max 0 (min 1 (((v : ℚ) - (bottom : ℚ)) / ((top : ℚ) - (bottom : ℚ)))) with hc
  have hc0 : 0 ≤ c := le_max_left _ _
  have hc1 : c ≤ 1 := max_le zero_le_one (min_le_left _ _)
  cases bit_8 with
  | false =>
    simp only [if_neg Bool.false_ne_true, Bool.false_eq_true, ite_false]
    have hnn : 0 ≤ ⌊c * (65535 : ℚ)⌋ := Int.floor_nonneg.mpr (by positivity)
    have hub : c * (65535 : ℚ) ≤ 65535 := by nlinarith
    have hle : ⌊c * (65535 : ℚ)⌋ ≤ 65535 := by
      have h := Int.floor_le_floor hub
      simpa using h
    exact Int.emod_eq_of_lt hnn (by omega)
  | true =>
    simp only [ite_true]
    have hnn : 0 ≤ ⌊c * (255 : ℚ)⌋ := Int.floor_nonneg.mpr (by positivity)
    have hub : c * (255 : ℚ) ≤ 255 := by nlinarith
    have hle : ⌊c * (255 : ℚ)⌋ ≤ 255 := by
      have h := Int.floor_le_floor hub
      simpa using h
    exact Int.emod_eq_of_lt hnn (by omega)

/-- The source computation agrees with the spec formula
`floor (clip ((v - bottom) / (top - bottom), 0, 1) * (2^d - 1))`. -/
lemma normalizeSample_eq_spec (bit_8 : Bool) (bottom top v : ℤ) :
    normalizeSample bit_8 bottom top v
      = specSample (if bit_8 then 8 else 16) bottom top v := by
  rw [normalizeSample_eq_floor]
  unfold specSample
  cases bit_8 <;> norm_num

/-- Every output of `normalizeSample` lies in `[0, 2^d - 1]`
(unconditionally: the clip bounds the scale factor in `[0, 1]`). -/
lemma normalizeSample_range (bit_8 : Bool) (bottom top v : ℤ) :
    0 ≤ normalizeSample bit_8 bottom top v ∧
      normalizeSample bit_8 bottom top v ≤ (if bit_8 then (255 : ℤ) else 65535) := by
  rw [normalizeSample_eq_floor]
  set c : ℚ := max 0 (min 1 (((v : ℚ) - (bottom : ℚ)) / ((top : ℚ) - (bottom : ℚ)))) with hc
  have hc0 : 0 ≤ c := le_max_left _ _
  have hc1 : c ≤ 1 := max_le zero_le_one (min_le_left _ _)
  cases bit_8 with
  | false =>
    refine ⟨Int.floor_nonneg.mpr (by positivity), ?_⟩
    have hub : c * (65535 : ℚ) ≤ 65535 := by nlinarith
    have h := Int.floor_le_floor hub
    simpa using h
  | true =>
    refine ⟨Int.floor_nonneg.mpr (by positivity), ?_⟩
    have hub : c * (255 : ℚ) ≤ 255 := by nlinarith
    have h := Int.floor_le_floor hub
    simpa using h

/-- A sample equal to `bottom` scales to 0 (the difference quotient is
literally zero, so no positivity of the denominator is needed). -/
lemma normalizeSample_at_bottom (bit_8 : Bool) (bottom top : ℤ) :
    normalizeSample bit_8 bottom top bottom = 0 := by
  rw [normalizeSample_eq_floor]
  have h : ((bottom : ℚ) - (bottom : ℚ)) / ((top : ℚ) - (bottom : ℚ)) = 0 := by
    rw [sub_self, zero_div]
  rw [h]
  cases bit_8 <;> norm_num

/-- A sample equal to `top` scales to the full-range value when
`bottom < top`. -/
lemma normalizeSample_at_top (bit_8 : Bool) {bottom top : ℤ} (h : bottom < top) :
    normalizeSample bit_8 bottom top top = (if bit_8 then (255 : ℤ) else 65535) := by
  rw [normalizeSample_eq_floor]
  have hbt : (bottom : ℚ) < (top : ℚ) := by exact_mod_cast h
  have h1 : ((top : ℚ) - (bottom : ℚ)) / ((top : ℚ) - (bottom : ℚ)) = 1 :=
    div_self (by linarith)
  rw [h1]
  cases bit_8 <;> norm_num

/-- A sample below `bottom` clips to 0 when `bottom < top`. -/
lemma normalizeSample_below (bit_8 : Bool) {bottom top v : ℤ} (h : bottom < top)
    (hv : v < bottom) : normalizeSample bit_8 bottom top v = 0 := by
  rw [normalizeSample_eq_floor]
  have hbt : (bottom : ℚ) < (top : ℚ) := by exact_mod_cast h
  have hvb : (v : ℚ) < (bottom : ℚ) := by exact_mod_cast hv
  have hs : ((v : ℚ) - (bottom : ℚ)) / ((top : ℚ) - (bottom : ℚ)) < 0 :=
    div_neg_of_neg_of_pos (by linarith) (by linarith)
  have hmin : min 1 (((v : ℚ) - (bottom : ℚ)) / ((top : ℚ) - (bottom : ℚ)))
      = ((v : ℚ) - (bottom : ℚ)) / ((top : ℚ) - (bottom : ℚ)) :=
    min_eq_right (by linarith)
  rw [hmin, max_eq_left hs.le]
  cases bit_8 <;> norm_num

/-- A sample above `top` clips to the full-range value when
`bottom < top`. -/
lemma normalizeSample_above (bit_8 : Bool) {bottom top v : ℤ} (h : bottom < top)
    (hv : top < v) : normalizeSample bit_8 bottom top v = (if bit_8 then (255 : ℤ) else 65535) := by
  rw [normalizeSample_eq_floor]
  have hbt : (bottom : ℚ) < (top : ℚ) := by exact_mod_cast h
  have htv : (top : ℚ) < (v : ℚ) := by exact_mod_cast hv
  have hs : 1 < ((v : ℚ) - (bottom : ℚ)) / ((top : ℚ) - (bottom : ℚ)) :=
    (one_lt_div (by linarith)).mpr (by linarith)
  rw [min_eq_left hs.le, max_eq_right zero_le_one]
  cases bit_8 <;> norm_num

/-- The per-sample map is monotone for fixed bounds `bottom < top`. -/
lemma normalizeSample_mono (bit_8 : Bool) {bottom top v1 v2 : ℤ} (h : bottom < top)
    (hv : v1 ≤ v2) :
    normalizeSample bit_8 bottom top v1 ≤ normalizeSample bit_8 bottom top v2 := by
  rw [normalizeSample_eq_floor, normalizeSample_eq_floor]
  apply Int.floor_le_floor
  have hbt : (bottom : ℚ) < (top : ℚ) := by exact_mod_cast h
  have hv' : (v1 : ℚ) ≤ (v2 : ℚ) := by exact_mod_cast hv
  have hM : (0 : ℚ) ≤ (if bit_8 then (255 : ℚ) else 65535) := by
    cases bit_8 <;> norm_num
  apply mul_le_mul_of_nonneg_right _ hM
  apply max_le_max le_rfl
  apply min_le_min le_rfl
  exact (div_le_div_iff_of_pos_right (by linarith)).mpr (by linarith)

/-- Claim C1: for every pixel grid and explicit integer bounds with
`bottom < top`, `lin_normalize_image` returns the grid in which every
sample equals `floor (clip ((v - bottom) / (top - bottom), 0, 1) * (2^d - 1))`
with `d = 8` in 8-bit mode and `d = 16` otherwise; consequently every
output sample lies in `[0, 2^d - 1]`, a sample equal to `bottom` maps to
0, one equal to `top` maps to `2^d - 1`, samples below `bottom` map to 0
and samples above `top` map to `2^d - 1`. -/
theorem C1_lin_normalize_spec (image : List (List ℤ)) (bit_8 : Bool)
    (bottom top v : ℤ) (h : bottom < top) :
    lin_normalize_image image bit_8 (some bottom) (some top)
        = image.map (List.map (specSample (if bit_8 then 8 else 16) bottom top))
      ∧ 0 ≤ normalizeSample bit_8 bottom top v
      ∧ normalizeSample bit_8 bottom top v ≤ 2 ^ (if bit_8 then 8 else 16) - 1
      ∧ normalizeSample bit_8 bottom top bottom = 0
      ∧ normalizeSample bit_8 bottom top top = 2 ^ (if bit_8 then 8 else 16) - 1
      ∧ (v < bottom → normalizeSample bit_8 bottom top v = 0)
      ∧ (top < v → normalizeSample bit_8 bottom top v = 2 ^ (if bit_8 then 8 else 16) - 1) := by
  have hpow : (2 ^ (if bit_8 then 8 else 16) - 1 : ℤ) = (if bit_8 then (255 : ℤ) else 65535) := by
    cases bit_8 <;> norm_num
  have hf : normalizeSample bit_8 bottom top
      = specSample (if bit_8 then 8 else 16) bottom top :=
    funext (normalizeSample_eq_spec bit_8 bottom top)
  refine ⟨?_, (normalizeSample_range bit_8 bottom top v).1, ?_,
    normalizeSample_at_bottom bit_8 bottom top, ?_, ?_, ?_⟩
  · simp [lin_normalize_image, hf]
  · rw [hpow]; exact (normalizeSample_range bit_8 bottom top v).2
  · rw [hpow]; exact normalizeSample_at_top bit_8 h
  · exact fun hv => normalizeSample_below bit_8 h hv
  · intro hv; rw [hpow]; exact normalizeSample_above bit_8 h hv

/-- Witness for C1 at the spec's scenario-1 values: bounds
`(53500, 56500)`, 8-bit mode. -/
theorem C1_lin_normalize_spec_witness :
    lin_normalize_image [[53500]] true (some 53500) (some 56500)
        = [[specSample 8 53500 56500 53500]]
      ∧ normalizeSample true 53500 56500 53500 = 0
      ∧ normalizeSample true 53500 56500 56500 = 2 ^ 8 - 1 :=
  have h := C1_lin_normalize_spec [[53500]] true 53500 56500 54500 (by decide)
  ⟨h.1, h.2.2.2.1, h.2.2.2.2.1⟩

/-- Claim C6: for fixed bounds with `bottom < top` and fixed target bit
depth, the per-sample map of `lin_normalize_image` is monotone:
`v1 ≤ v2` implies the output for `v1` is at most the output for `v2`. -/
theorem C6_normalize_monotone (bit_8 : Bool) (bottom top v1 v2 : ℤ)
    (h : bottom < top) (hv : v1 ≤ v2) :
    normalizeSample bit_8 bottom top v1 ≤ normalizeSample bit_8 bottom top v2 :=
  normalizeSample_mono bit_8 h hv

/-- Witness for C6: midpoint sample between the two bounds of camera C. -/
theorem C6_normalize_monotone_witness :
    normalizeSample true 50500 58500 54500 ≤ normalizeSample true 50500 58500 58500 :=
  C6_normalize_monotone true 50500 58500 54500 58500 (by decide) (by decide)

/-- Claim C10: `lin_normalize_image` preserves the shape of its input:
same number of rows, and row by row the same number of columns. -/
theorem C10_lin_normalize_shape (image : List (List ℤ)) (bit_8 : Bool)
    (bottom top : ℤ) (_h : bottom ≠ top) :
    (lin_normalize_image image bit_8 (some bottom) (some top)).length = image.length
      ∧ (lin_normalize_image image bit_8 (some bottom) (some top)).map List.length
          = image.map List.length := by
  constructor
  · simp [lin_normalize_image]
  · simp [lin_normalize_image, List.map_map, Function.comp_def]

/-- Witness for C10 on a 2×2 grid with the camera-P bounds. -/
theorem C10_lin_normalize_shape_witness :
    (lin_normalize_image [[53500, 56500], [0, 70000]] true (some 53500) (some 56500)).length = 2
      ∧ (lin_normalize_image [[53500, 56500], [0, 70000]] true (some 53500) (some 56500)).map List.length
          = [2, 2] :=
  have h := C10_lin_normalize_shape [[53500, 56500], [0, 70000]] true 53500 56500 (by decide)
  ⟨h.1, h.2⟩

/-- Claim C2 (code bug in the source): no `InvalidBoundsError` exists
anywhere in `normalizer.py`, and for `top == bottom` the code divides by
zero and returns normally instead of raising.  This theorem evaluates the
embedded code at degenerate bounds: it produces an ordinary grid (in the
exact-arithmetic model the division-by-zero junk value is 0; numpy would
produce NaN-derived garbage), not an error. -/
theorem C2_degenerate_bounds_return_normally :
    lin_normalize_image [[51000]] true (some 100) (some 100) = [[0]] := by
  norm_num [lin_normalize_image, normalizeSample]

/-- Claim C3 (code bug in the source): on a filename with no `P`/`C`/`S`
token, `parse_filename` prints the intended warning but then executes
`return camera_pos` with `camera_pos` never assigned, so it raises
`UnboundLocalError` instead of falling through to the default bounds;
`process_file` catches it and returns `False` even though loading and
saving succeed. -/
theorem C3_unparseable_filename_crashes :
    parse_filename ("2016_ABC_16BIT.PNG".toList) = none
      ∧ get_scaling_values ("2016_ABC_16BIT.PNG".toList) 480
          = Except.error "UnboundLocalError: camera_pos"
      ∧ process_file okFS true ("2016_ABC_16BIT.PNG".toList)
          ("2016_ABC_8BIT-N.PNG".toList) = false :=
  ⟨rfl, rfl, rfl⟩

/-- Claim C4: for every filename whose basename yields a camera token,
`get_scaling_values` returns exactly the tabled bounds: P with 512 rows
gives `(53500, 56500)`; P with 480 rows gives `(50500, 58500)`; P with
any other row count falls back to the default `(51000, 57500)`; C gives
`(50500, 58500)`; S gives `(51000, 57500)`. -/
theorem C4_scaling_table (f : List Char) (n : ℕ) (c : List Char)
    (h : parse_filename f = some c) :
    get_scaling_values f n =
      Except.ok
        (if c = ("P".toList) then
            if n = 512 then ((53500 : ℤ), (56500 : ℤ))
            else if n = 480 then (50500, 58500)
            else (51000, 57500)
          else if c = ("C".toList) then (50500, 58500)
          else (51000, 57500)) := by
  simp only [get_scaling_values, h]
  split_ifs <;> rfl

/-- Witness for C4 at the spec's scenario-1 filename. -/
theorem C4_scaling_table_witness :
    get_scaling_values ("X_P_Y_16BIT.PNG".toList) 512 = Except.ok (53500, 56500) :=
  (C4_scaling_table ("X_P_Y_16BIT.PNG".toList) 512 ("P".toList) rfl).trans rfl

/-- Claim C5: every failure while loading or saving inside
`process_file` is converted into a `false` result (the function is total,
so nothing propagates out of the worker); the batch total is the number
of directory entries containing `16BIT.PNG`, and on the fixture with five
matching files of which one is unreadable the summary is
`(total, succeeded) = (5, 4)`. -/
theorem C5_failures_contained :
    (∀ fs : FileSystem, ∀ bit_8 : Bool, ∀ i o : List Char,
        fs.load i = none → process_file fs bit_8 i o = false)
      ∧ (∀ fs : FileSystem, ∀ bit_8 : Bool, ∀ i o : List Char,
          (∀ o' g, fs.save o' g = false) → process_file fs bit_8 i o = false)
      ∧ (∀ fs : FileSystem, ∀ listing : List (List Char), ∀ bit_8 : Bool,
          ∀ indir outdir : List Char,
          (runBatch fs listing bit_8 indir outdir).1
            = (listing.filter contains16BIT).length)
      ∧ runBatch exFS exListing true ("in".toList) ("out".toList) = (5, 4) := by
  refine ⟨?_, ?_, ?_, rfl⟩
  · intro fs b i o h
    unfold process_file
    rw [h]
  · intro fs b i o h
    rcases hl : fs.load i with _ | g
    · simp [process_file, hl]
    · rcases hgs : get_scaling_values i g.length with e | ⟨bt, tp⟩
      · simp [process_file, hl, hgs]
      · simp [process_file, hl, hgs, h]
  · intro fs listing b indir outdir
    simp [runBatch, curate_files]

/-- Witness for C5: a file system whose every load fails yields a
`false` result for any single file. -/
theorem C5_failures_contained_witness :
    process_file badFS true ("f1_P_16BIT.PNG".toList) ("f1_P_8BIT-N.PNG".toList) = false
      ∧ runBatch exFS exListing true ("in".toList) ("out".toList) = (5, 4) :=
  ⟨C5_failures_contained.1 badFS true ("f1_P_16BIT.PNG".toList)
      ("f1_P_8BIT-N.PNG".toList) rfl,
    C5_failures_contained.2.2.2⟩

/-- Characterization of the embedded `find(...) != -1` test: it holds
exactly when the pattern occurs as a contiguous substring. -/
lemma strFind_iff (pat : List Char) :
    ∀ s : List Char, strFind pat s = true ↔ ∃ pre post : List Char, s = pre ++ pat ++ post
  | [] => by
    constructor
    · intro h
      cases pat with
      | nil => exact ⟨[], [], rfl⟩
      | cons p ps => simp [strFind] at h
    · rintro ⟨pre, post, hpp⟩
      have h2 : (pre ++ pat) ++ post = [] := hpp.symm
      rw [List.append_eq_nil, List.append_eq_nil] at h2
      rcases h2 with ⟨⟨-, hpat⟩, -⟩
      subst hpat
      rfl
  | c :: rest => by
    simp only [strFind, Bool.or_eq_true]
    rw [strFind_iff pat rest]
    constructor
    · rintro (hp | ⟨pre, post, hpp⟩)
      · obtain ⟨t, ht⟩ := List.isPrefixOf_iff_prefix.mp hp
        exact ⟨[], t, by simp [← ht]⟩
      · exact ⟨c :: pre, post, by simp [hpp]⟩
    · rintro ⟨pre, post, hpp⟩
      cases pre with
      | nil =>
        left
        apply List.isPrefixOf_iff_prefix.mpr
        exact ⟨post, by simpa using hpp.symm⟩
      | cons c2 pre2 =>
        right
        have hc : c = c2 ∧ rest = pre2 ++ pat ++ post := by simpa using hpp
        exact ⟨pre2, post, hc.2⟩

/-- Claim C7: `curate_files` selects exactly the listing entries whose
name contains the substring `16BIT.PNG` (in order), and pairs each one,
index-aligned, with the name obtained by replacing `16BIT` with `8BIT-N`
in 8-bit mode and `16BIT.` with `16BIT-N.` otherwise; in particular
`foo_16BIT.PNG` becomes `foo_8BIT-N.PNG` with `--bit8` and
`foo_16BIT-N.PNG` without. -/
theorem C7_curate_files_naming :
    (∀ listing : List (List Char), ∀ indir outdir : List Char,
        curate_files listing indir outdir true
          = ((listing.filter contains16BIT).map (pathJoin indir),
             ((listing.filter contains16BIT).map
                (pyReplace ("16BIT".toList) ("8BIT-N".toList))).map (pathJoin outdir))
        ∧ curate_files listing indir outdir false
          = ((listing.filter contains16BIT).map (pathJoin indir),
             ((listing.filter contains16BIT).map
                (pyReplace ("16BIT.".toList) ("16BIT-N.".toList))).map (pathJoin outdir)))
      ∧ (∀ s : List Char,
          contains16BIT s = true ↔ ∃ pre post, s = pre ++ ("16BIT.PNG".toList) ++ post)
      ∧ pyReplace ("16BIT".toList) ("8BIT-N".toList) ("foo_16BIT.PNG".toList)
          = ("foo_8BIT-N.PNG".toList)
      ∧ pyReplace ("16BIT.".toList) ("16BIT-N.".toList) ("foo_16BIT.PNG".toList)
          = ("foo_16BIT-N.PNG".toList) :=
  ⟨fun _ _ _ => ⟨rfl, rfl⟩, strFind_iff _, rfl, rfl⟩

/-- Witness for C7 on a two-entry listing with empty directories. -/
theorem C7_curate_files_naming_witness :
    curate_files [("foo_16BIT.PNG".toList), ("notes.txt".toList)] [] [] true
        = ([("foo_16BIT.PNG".toList)], [("foo_8BIT-N.PNG".toList)])
      ∧ contains16BIT ("A_16BIT.PNG.txt".toList) = true :=
  ⟨((C7_curate_files_naming.1 [("foo_16BIT.PNG".toList), ("notes.txt".toList)] [] []).1).trans rfl,
    (C7_curate_files_naming.2.1 ("A_16BIT.PNG.txt".toList)).mpr
      ⟨("A_".toList), (".txt".toList), rfl⟩⟩

/-- Claim C8: `get_scaling_values` is a pure deterministic function of
its two arguments: equal inputs give equal `(bottom, top)` results. -/
theorem C8_scaling_deterministic (f1 f2 : List Char) (n1 n2 : ℕ)
    (hf : f1 = f2) (hn : n1 = n2) :
    get_scaling_values f1 n1 = get_scaling_values f2 n2 := by
  rw [hf, hn]

/-- Witness for C8 at a concrete filename and row count. -/
theorem C8_scaling_deterministic_witness :
    get_scaling_values ("A_P_16BIT.PNG".toList) 512
      = get_scaling_values ("A_P_16BIT.PNG".toList) 512 :=
  C8_scaling_deterministic ("A_P_16BIT.PNG".toList) ("A_P_16BIT.PNG".toList)
    512 512 rfl rfl

/-- Claim C9: for every available-core count `n ≥ 1`, the pool size
`cpu_count() - 1 or 1` equals `max 1 (n - 1)` and is at least 1 (so on a
single-core machine it is 1, never 0). -/
theorem C9_num_workers_size (n : ℤ) (h : 1 ≤ n) :
    num_workers n = max 1 (n - 1) ∧ 1 ≤ num_workers n := by
  unfold num_workers
  rcases eq_or_lt_of_le h with h1 | h1
  · rw [← h1]
    norm_num
  · have h0 : ¬ (n - 1 = 0) := by omega
    rw [if_neg h0, max_eq_right (by omega : (1 : ℤ) ≤ n - 1)]
    exact ⟨rfl, by omega⟩

/-- Witness for C9 on a single-core machine. -/
theorem C9_num_workers_size_witness :
    num_workers 1 = max 1 (1 - 1) ∧ 1 ≤ num_workers 1 :=
  C9_num_workers_size 1 (by decide)
